import Mathlib

/-
Verification of the Windows entropy-acquisition unit (crypto/rand/rand_win.c)
against its design specification.

The file shallowly embeds the unit:

* `RAND_POOL` and its operations (`rand_pool_bytes_needed`,
  `rand_pool_add_begin`, `rand_pool_add_end`, `rand_pool_entropy_available`,
  `rand_pool_add`) are modelled from the spec, because rand_lib.c (where
  they are implemented) is not part of this source tree.
* `rand_pool_acquire_entropy` is embedded from rand_win.c as a prioritized
  sequence of source stages with early exit; operating-system outcomes
  (BCryptGenRandom status, CryptoAPI results, library loading) are supplied
  by an environment record `OSEnv`, and compile-time seeding options by
  `BuildConfig`.
* The lazily resolved process-wide `BCryptGenRandom` binding and its
  compare-and-swap protocol are embedded twice: sequentially (inside one
  acquisition call) and as a small interleaving machine over any number of
  racing threads (`threadStep` / `runSched`), to settle the concurrency
  claims.
* The two nonce generators (`rand_pool_add_nonce_data`,
  `rand_pool_add_additional_data`) are embedded down to the byte layout of
  their stack records, with the previous stack contents made explicit, so
  that the zero-before-populate property can be stated as noninterference.
-/

set_option autoImplicit false

/-! ### The entropy pool -/

/-- Modelled from the spec: the EntropyPool of rand_lib.c, which is not in
this source tree.  It carries the byte counter, the credited entropy
counter, the buffer capacity, the caller's entropy target in bits and the
`max_entropy_bits` cap.  Buffer contents are irrelevant to the accounting
claims and are not tracked here. -/
structure RAND_POOL where
  bytes_written : Nat
  entropy : Nat
  capacity : Nat
  entropy_requested : Nat
  max_entropy_bits : Nat
deriving DecidableEq, Repr

/-- Modelled from the spec: `bytes_needed(entropy_factor)` computes the byte
request from the remaining entropy deficit, deterministically; rand_win.c
always calls it with factor 1. -/
def rand_pool_bytes_needed (pool : RAND_POOL) (entropy_factor : Nat) : Nat :=
  ((pool.entropy_requested - pool.entropy) * entropy_factor + 7) / 8

/-- Modelled from the spec: `reserve(n)` returns a writable region of exactly
`n` bytes if capacity allows, else none; no partial reservations, and a
reservation that cannot be satisfied yields none without mutating the pool.
The region itself is represented by its length. -/
def rand_pool_add_begin (pool : RAND_POOL) (len : Nat) : Option Nat :=
  if 0 < len ∧ pool.bytes_written + len ≤ pool.capacity then some len else none

/-- Modelled from the spec: `commit(bytes, entropy)` records `bytes` written
bytes and credits the claimed entropy, clipped to `8 * bytes` and to the
remaining room under `max_entropy_bits`. -/
def rand_pool_add_end (pool : RAND_POOL) (len : Nat) (entropy : Nat) : RAND_POOL :=
  ⟨pool.bytes_written + len,
   pool.entropy + min (min entropy (8 * len)) (pool.max_entropy_bits - pool.entropy),
   pool.capacity, pool.entropy_requested, pool.max_entropy_bits⟩

/-- Modelled from the spec: `available_entropy()` reports the entropy credited
so far. -/
def rand_pool_entropy_available (pool : RAND_POOL) : Nat :=
  pool.entropy

/-- Modelled from the spec: `rand_pool_add` feeds a byte string into the pool
with a claimed entropy weight, clipping the credit exactly like a commit;
per the spec this path always succeeds and the boolean is retained only for
interface symmetry. -/
def rand_pool_add (pool : RAND_POOL) (data : List Nat) (entropy : Nat) :
    RAND_POOL × Bool :=
  (⟨pool.bytes_written + data.length,
    pool.entropy + min (min entropy (8 * data.length)) (pool.max_entropy_bits - pool.entropy),
    pool.capacity, pool.entropy_requested, pool.max_entropy_bits⟩,
   true)

/-- A pool-level event: a reservation (with its requested length and whether a
buffer was obtained) or a commit (with its byte count and claimed entropy
weight, the two arguments of `rand_pool_add_end`). -/
inductive PoolEv where
  | reserve : Nat → Bool → PoolEv
  | commit : Nat → Nat → PoolEv
deriving DecidableEq, Repr

/-- Effect of one pool event on the pool counters: a reservation does not
mutate the pool, a commit is `rand_pool_add_end`. -/
def applyPoolEv (pool : RAND_POOL) : PoolEv → RAND_POOL
  | PoolEv.reserve _ _ => pool
  | PoolEv.commit b e => rand_pool_add_end pool b e

/-- Effect of a sequence of reserve/commit events on the pool. -/
def applyPoolEvs (pool : RAND_POOL) (evs : List PoolEv) : RAND_POOL :=
  evs.foldl applyPoolEv pool

/-! ### The nonce records -/

/-- Little-endian byte encoding of a 32-bit value (a `DWORD`). -/
def encodeU32 (x : Nat) : List Nat :=
  [x % 256, x / 256 % 256, x / 65536 % 256, x / 16777216 % 256]

/-- Little-endian byte encoding of a 64-bit value (a `LARGE_INTEGER`). -/
def encodeU64 (x : Nat) : List Nat :=
  encodeU32 (x % 4294967296) ++ encodeU32 (x / 4294967296)

/-- Overwrite the bytes of `mem` starting at offset `off` with `bs`, leaving
the rest unchanged (a field store into a stack record). -/
def storeBytes (mem : List Nat) (off : Nat) (bs : List Nat) : List Nat :=
  mem.take off ++ bs ++ mem.drop (off + bs.length)

/-- Semantics of `memset(&data, v, sizeof(data))`: every byte of the record,
padding included, is overwritten with `v`. -/
def c_memset (mem : List Nat) (v : Nat) : List Nat :=
  mem.map fun _ => v

/-- Size of `struct { DWORD pid; DWORD tid; FILETIME time; }`:
pid at offset 0, tid at offset 4, the FILETIME low and high words at
offsets 8 and 12. -/
def NONCE_DATA_SIZE : Nat := 16

/-- Size of `struct { DWORD tid; LARGE_INTEGER time; }`: tid at offset 0,
four bytes of alignment padding at offsets 4 to 7, the counter value at
offset 8. -/
def ADDITIONAL_DATA_SIZE : Nat := 16

/-- The byte image of the `data` record built by rand_pool_add_nonce_data:
the record initially holds whatever bytes previously occupied that stack
region (`stack`), is erased wholesale by `memset(&data, 0, sizeof(data))`,
and then the pid, tid and FILETIME fields are stored. -/
def nonce_data_bytes (stack : List Nat) (pid tid ftLow ftHigh : Nat) : List Nat :=
  let d := c_memset stack 0
  let d := storeBytes d 0 (encodeU32 pid)
  let d := storeBytes d 4 (encodeU32 tid)
  let d := storeBytes d 8 (encodeU32 ftLow)
  let d := storeBytes d 12 (encodeU32 ftHigh)
  d

/-- The byte image of the `data` record built by rand_pool_add_additional_data:
previous stack contents, erased wholesale by memset, then the tid field and
the QueryPerformanceCounter value are stored (the padding bytes at offsets
4 to 7 keep their memset value). -/
def additional_data_bytes (stack : List Nat) (tid counter : Nat) : List Nat :=
  let d := c_memset stack 0
  let d := storeBytes d 0 (encodeU32 tid)
  let d := storeBytes d 8 (encodeU64 counter)
  d

/-- rand_pool_add_nonce_data: builds the pid/tid/FILETIME record on the stack
and feeds it into the pool with a claimed entropy weight of 0.  The previous
contents of the stack region and the values returned by the OS identity and
time calls are passed explicitly. -/
def rand_pool_add_nonce_data (pool : RAND_POOL) (stack : List Nat)
    (pid tid ftLow ftHigh : Nat) : RAND_POOL × Bool :=
  rand_pool_add pool (nonce_data_bytes stack pid tid ftLow ftHigh) 0

/-- rand_pool_add_additional_data: builds the tid/QueryPerformanceCounter
record on the stack and feeds it into the pool with a claimed entropy weight
of 0. -/
def rand_pool_add_additional_data (pool : RAND_POOL) (stack : List Nat)
    (tid counter : Nat) : RAND_POOL × Bool :=
  rand_pool_add pool (additional_data_bytes stack tid counter) 0

/-! ### The acquisition orchestrator of rand_win.c -/

/-- The value of the process-wide static `s_pfnBCryptGenRandom`:
the `PFN_BCryptGenRandom_NOTSET` sentinel `(PFN_BCryptGenRandom)-1`, the
NULL pointer (resolution failed), or a bound function pointer. -/
inductive BindingVal where
  | notset : BindingVal
  | null : BindingVal
  | fn : Nat → BindingVal
deriving DecidableEq, Repr

/-- The exact defined success code of `BCryptGenRandom`:
`STATUS_SUCCESS ((NTSTATUS)0x00000000L)`. -/
def STATUS_SUCCESS : Nat := 0

/-- Compile-time seeding options of rand_win.c: whether the
`OPENSSL_RAND_SEED_RDTSC` and `OPENSSL_RAND_SEED_RDCPU` sources are compiled
in, and whether `USE_BCRYPTGENRANDOM` is defined. -/
structure BuildConfig where
  seed_rdtsc : Bool
  seed_rdcpu : Bool
  use_bcrypt : Bool
deriving DecidableEq, Repr

/-- Outcomes of the operating-system and helper calls made during one
acquisition call.  `tsc` and `cpu` stand for `rand_acquire_entropy_from_tsc`
and `rand_acquire_entropy_from_cpu` (not in this source tree): each may
transform the pool arbitrarily and, per the spec, reports the pool's
available entropy after its attempt.  `load_library` and `get_proc` are the
`LoadLibraryExA` and `GetProcAddress` results used by the lazy binding;
`bcrypt_status` is the NTSTATUS returned by the bound `BCryptGenRandom`;
the four booleans are the nonzero-ness of the `CryptAcquireContextW` and
`CryptGenRandom` results for the `PROV_RSA_FULL` and `PROV_INTEL_SEC`
providers. -/
structure OSEnv where
  tsc : RAND_POOL → RAND_POOL
  cpu : RAND_POOL → RAND_POOL
  load_library : Option Nat
  get_proc : Option Nat
  bcrypt_status : Nat
  rsa_acquire : Bool
  rsa_gen : Bool
  intel_acquire : Bool
  intel_gen : Bool

/-- The five entropy sources of rand_win.c, in their fixed priority order:
the timing-jitter source, the CPU RNG instruction source, the BCrypt
binding, the CryptoAPI `PROV_RSA_FULL` provider and the Intel hardware
CSP (`PROV_INTEL_SEC`). -/
inductive Source where
  | tsc : Source
  | cpu : Source
  | bcrypt : Source
  | cryptoapi_rsa : Source
  | cryptoapi_intel : Source
deriving DecidableEq, Repr

/-- The mutable locals of `rand_pool_acquire_entropy`: the pool, the
`entropy_available` variable, and the process-wide binding state. -/
structure AcqState where
  pool : RAND_POOL
  ea : Nat
  shared : BindingVal
deriving Repr

/-- Provider-handle events of a CryptoAPI stage: `CryptAcquireContextW`
succeeding, and `CryptReleaseContext`. -/
inductive HandleEv where
  | acquired : HandleEv
  | released : HandleEv
deriving DecidableEq, Repr

/-- Result of running one source stage: the updated locals, whether the stage
body executed a `return entropy_available` statement, the pool reserve/commit
events it performed, and the provider-handle events it performed. -/
structure StageOut where
  st : AcqState
  exit : Bool
  evs : List PoolEv
  hevs : List HandleEv
deriving Repr

/-- The lazy-binding resolution performed inside one acquisition call
(rand_win.c lines 79 to 95), sequentially: the initial interlocked exchange
reads the shared state; if it is still the `NOTSET` sentinel, the library is
loaded and the entry point located, and the result (the located function, or
NULL when either step failed) is published by compare-and-swap.  Returns the
new shared state and the function pointer the caller will use (`none` for
NULL). -/
def resolveBinding (env : OSEnv) (shared : BindingVal) : BindingVal × Option Nat :=
  match shared with
  | BindingVal.notset =>
      let pfn : Option Nat :=
        match env.load_library with
        | none => none
        | some _ => env.get_proc
      match pfn with
      | none => (BindingVal.null, none)
      | some a => (BindingVal.fn a, some a)
  | BindingVal.null => (BindingVal.null, none)
  | BindingVal.fn a => (BindingVal.fn a, some a)

/-- The `OPENSSL_RAND_SEED_RDTSC` stage: `rand_acquire_entropy_from_tsc`
transforms the pool and reports its available entropy; the orchestrator
returns that value when it is positive. -/
def tscStage (env : OSEnv) (σ : AcqState) : StageOut :=
  let pool := env.tsc σ.pool
  let ea := rand_pool_entropy_available pool
  ⟨⟨pool, ea, σ.shared⟩, decide (0 < ea), [], []⟩

/-- The `OPENSSL_RAND_SEED_RDCPU` stage: `rand_acquire_entropy_from_cpu`,
with the same contract as the timing-jitter stage. -/
def cpuStage (env : OSEnv) (σ : AcqState) : StageOut :=
  let pool := env.cpu σ.pool
  let ea := rand_pool_entropy_available pool
  ⟨⟨pool, ea, σ.shared⟩, decide (0 < ea), [], []⟩

/-- The `USE_BCRYPTGENRANDOM` stage: resolve the binding; when it is NULL,
fall through without touching the pool and without checking
`entropy_available`; otherwise reserve `bytes_needed(1)` bytes and, when a
buffer was obtained, commit `bytes_needed` bytes exactly when
`BCryptGenRandom` returned `STATUS_SUCCESS` and `0` bytes otherwise, always
claiming 8 bits per committed byte, then re-read the available entropy and
return it when positive. -/
def bcryptStage (env : OSEnv) (σ : AcqState) : StageOut :=
  let rb := resolveBinding env σ.shared
  match rb.2 with
  | none => ⟨⟨σ.pool, σ.ea, rb.1⟩, false, [], []⟩
  | some _ =>
    let bytes_needed := rand_pool_bytes_needed σ.pool 1
    match rand_pool_add_begin σ.pool bytes_needed with
    | none =>
        ⟨⟨σ.pool, σ.ea, rb.1⟩, decide (0 < σ.ea), [PoolEv.reserve bytes_needed false], []⟩
    | some _ =>
        let bytes := if env.bcrypt_status = STATUS_SUCCESS then bytes_needed else 0
        let pool' := rand_pool_add_end σ.pool bytes (8 * bytes)
        let ea' := rand_pool_entropy_available pool'
        ⟨⟨pool', ea', rb.1⟩, decide (0 < ea'),
         [PoolEv.reserve bytes_needed true, PoolEv.commit bytes (8 * bytes)], []⟩

/-- A legacy CryptoAPI stage (both the `PROV_RSA_FULL` block and the
`PROV_INTEL_SEC` block of rand_win.c have this exact shape): reserve
`bytes_needed(1)` bytes; when a buffer was obtained, acquire a provider
handle with `CryptAcquireContextW`, and when that succeeded call
`CryptGenRandom` and release the handle unconditionally; commit
`bytes_needed` bytes exactly when both calls succeeded and `0` bytes
otherwise, claiming 8 bits per committed byte; then re-read the available
entropy and return it when positive. -/
def cryptoStage (acquire_ok gen_ok : Bool) (σ : AcqState) : StageOut :=
  let bytes_needed := rand_pool_bytes_needed σ.pool 1
  match rand_pool_add_begin σ.pool bytes_needed with
  | none => ⟨σ, decide (0 < σ.ea), [PoolEv.reserve bytes_needed false], []⟩
  | some _ =>
      let bytes := if acquire_ok && gen_ok then bytes_needed else 0
      let hevs := if acquire_ok then [HandleEv.acquired, HandleEv.released] else []
      let pool' := rand_pool_add_end σ.pool bytes (8 * bytes)
      let ea' := rand_pool_entropy_available pool'
      ⟨⟨pool', ea', σ.shared⟩, decide (0 < ea'),
       [PoolEv.reserve bytes_needed true, PoolEv.commit bytes (8 * bytes)], hevs⟩

/-- Dispatch one source stage. -/
def runStage (env : OSEnv) (s : Source) (σ : AcqState) : StageOut :=
  match s with
  | Source.tsc => tscStage env σ
  | Source.cpu => cpuStage env σ
  | Source.bcrypt => bcryptStage env σ
  | Source.cryptoapi_rsa => cryptoStage env.rsa_acquire env.rsa_gen σ
  | Source.cryptoapi_intel => cryptoStage env.intel_acquire env.intel_gen σ

/-- The fixed priority order of rand_win.c, restricted to the sources present
in the build: timing jitter, then the CPU RNG instruction, then the BCrypt
binding, then the two CryptoAPI providers (always compiled in). -/
def enabledSources (cfg : BuildConfig) : List Source :=
  (if cfg.seed_rdtsc then [Source.tsc] else []) ++
  (if cfg.seed_rdcpu then [Source.cpu] else []) ++
  (if cfg.use_bcrypt then [Source.bcrypt] else []) ++
  [Source.cryptoapi_rsa, Source.cryptoapi_intel]

/-- Result of one acquisition call: the final locals, the returned entropy
count, and instrumentation — for every attempted source, the
`entropy_available` value the orchestrator observed after the attempt, the
pool events the attempt performed and the provider-handle events it
performed, all in attempt order. -/
structure AcqResult where
  st : AcqState
  ret : Nat
  attempts : List (Source × Nat)
  events : List (Source × List PoolEv)
  handles : List (Source × List HandleEv)
deriving Repr

/-- The body of `rand_pool_acquire_entropy`: run the stages in order,
returning as soon as a stage body executed `return entropy_available`; when
every stage fell through, return `rand_pool_entropy_available(pool)` (the
final statement of the function). -/
def acquireLoop (env : OSEnv) : List Source → AcqState → AcqResult
  | [], σ => ⟨σ, rand_pool_entropy_available σ.pool, [], [], []⟩
  | s :: rest, σ =>
    let o := runStage env s σ
    if o.exit then ⟨o.st, o.st.ea, [(s, o.st.ea)], [(s, o.evs)], [(s, o.hevs)]⟩
    else
      let r := acquireLoop env rest o.st
      ⟨r.st, r.ret, (s, o.st.ea) :: r.attempts, (s, o.evs) :: r.events,
       (s, o.hevs) :: r.handles⟩

/-- rand_pool_acquire_entropy: `entropy_available` starts at 0, the enabled
sources are tried in priority order with early exit, and the process-wide
binding state `shared` is threaded through the BCrypt stage. -/
def rand_pool_acquire_entropy (cfg : BuildConfig) (env : OSEnv)
    (shared : BindingVal) (pool : RAND_POOL) : AcqResult :=
  acquireLoop env (enabledSources cfg) ⟨pool, 0, shared⟩

/-! ### Pool accounting invariants -/

theorem rand_pool_add_end_bounds (pool : RAND_POOL) (b e : Nat)
    (h1 : pool.entropy ≤ 8 * pool.bytes_written)
    (h2 : pool.entropy ≤ pool.max_entropy_bits) :
    (rand_pool_add_end pool b e).entropy ≤ 8 * (rand_pool_add_end pool b e).bytes_written
    ∧ (rand_pool_add_end pool b e).entropy ≤ (rand_pool_add_end pool b e).max_entropy_bits := by
  simp only [rand_pool_add_end]
  constructor <;> omega

/-- Claim C1: over every sequence of reserve/commit operations starting from a
pool whose accounting is sound, the available entropy never exceeds eight
times the bytes actually written and never exceeds the configured
`max_entropy_bits`, even when a single commit claims more. -/
theorem pool_entropy_never_overcredited (pool : RAND_POOL) (ops : List PoolEv)
    (h1 : pool.entropy ≤ 8 * pool.bytes_written)
    (h2 : pool.entropy ≤ pool.max_entropy_bits) :
    rand_pool_entropy_available (applyPoolEvs pool ops) ≤
      8 * (applyPoolEvs pool ops).bytes_written
    ∧ rand_pool_entropy_available (applyPoolEvs pool ops) ≤
      (applyPoolEvs pool ops).max_entropy_bits := by
  induction ops generalizing pool with
  | nil =>
      simpa [applyPoolEvs, rand_pool_entropy_available] using And.intro h1 h2
  | cons op rest ih =>
      cases op with
      | reserve n ok =>
          simpa [applyPoolEvs, applyPoolEv] using ih pool h1 h2
      | commit b e =>
          have h := rand_pool_add_end_bounds pool b e h1 h2
          simpa [applyPoolEvs, applyPoolEv] using ih (rand_pool_add_end pool b e) h.1 h.2

/-- A fresh pool for concrete evaluations: empty, capacity 64 bytes, target
256 bits, cap 256 bits. -/
def testPool : RAND_POOL := ⟨0, 0, 64, 256, 256⟩

/-- A commit sequence in which single sources claim far more than the bytes
they wrote are worth. -/
def testOps : List PoolEv :=
  [PoolEv.reserve 32 true, PoolEv.commit 4 99999,
   PoolEv.reserve 16 false, PoolEv.commit 16 1000]

theorem pool_entropy_never_overcredited_witness :
    testPool.entropy ≤ 8 * testPool.bytes_written
    ∧ testPool.entropy ≤ testPool.max_entropy_bits
    ∧ (rand_pool_entropy_available (applyPoolEvs testPool testOps) ≤
        8 * (applyPoolEvs testPool testOps).bytes_written
      ∧ rand_pool_entropy_available (applyPoolEvs testPool testOps) ≤
        (applyPoolEvs testPool testOps).max_entropy_bits) :=
  ⟨by decide, by decide,
   pool_entropy_never_overcredited testPool testOps (by decide) (by decide)⟩

/-! ### Nonce generator claims -/

theorem c_memset_eq_replicate (s : List Nat) (v : Nat) :
    c_memset s v = List.replicate s.length v := by
  simp [c_memset, List.map_const']

/-- Claim C7: both nonce generators erase the whole fixed-layout record,
padding included, before populating its fields, so the bytes fed into the
pool do not depend on the uninitialized stack contents that previously
occupied the record: two runs over different prior stack contents produce
identical records. -/
theorem nonce_records_independent_of_stack (s1 s2 : List Nat)
    (pid tid ftLow ftHigh tid2 counter : Nat)
    (h1 : s1.length = NONCE_DATA_SIZE) (h2 : s2.length = NONCE_DATA_SIZE) :
    nonce_data_bytes s1 pid tid ftLow ftHigh = nonce_data_bytes s2 pid tid ftLow ftHigh
    ∧ additional_data_bytes s1 tid2 counter = additional_data_bytes s2 tid2 counter := by
  have e : c_memset s1 0 = c_memset s2 0 := by
    rw [c_memset_eq_replicate, c_memset_eq_replicate, h1, h2]
  constructor
  · simp [nonce_data_bytes, e]
  · simp [additional_data_bytes, e]

/-- Uninitialized stack bytes left over by a previous call. -/
def testStack1 : List Nat := [9, 8, 7, 6, 5, 4, 3, 2, 1, 0, 11, 12, 13, 14, 15, 16]

/-- A different set of uninitialized stack bytes. -/
def testStack2 : List Nat := [255, 254, 253, 252, 251, 250, 249, 248, 247, 246, 245, 244, 243, 242, 241, 240]

theorem nonce_records_independent_of_stack_witness :
    testStack1.length = NONCE_DATA_SIZE
    ∧ testStack2.length = NONCE_DATA_SIZE
    ∧ (nonce_data_bytes testStack1 1234 5678 42 43 = nonce_data_bytes testStack2 1234 5678 42 43
      ∧ additional_data_bytes testStack1 5678 123456789 = additional_data_bytes testStack2 5678 123456789) :=
  ⟨by decide, by decide,
   nonce_records_independent_of_stack testStack1 testStack2 1234 5678 42 43 5678 123456789
     (by decide) (by decide)⟩

/-- Claim C8: both nonce generators feed their record into the pool with a
claimed entropy weight of exactly zero, so the pool's available entropy is
unchanged — nonce bytes are never counted toward the entropy target. -/
theorem nonce_data_adds_zero_entropy (pool : RAND_POOL) (stack1 stack2 : List Nat)
    (pid tid ftLow ftHigh tid2 counter : Nat) :
    rand_pool_entropy_available (rand_pool_add_nonce_data pool stack1 pid tid ftLow ftHigh).1 =
      rand_pool_entropy_available pool
    ∧ rand_pool_entropy_available (rand_pool_add_additional_data pool stack2 tid2 counter).1 =
      rand_pool_entropy_available pool := by
  constructor <;>
    simp [rand_pool_add_nonce_data, rand_pool_add_additional_data, rand_pool_add,
      rand_pool_entropy_available]

/-- Claim C9: rand_pool_add_nonce_data and rand_pool_add_additional_data
return the success boolean unconditionally; no failure path exists. -/
theorem nonce_data_always_succeeds (pool : RAND_POOL) (stack1 stack2 : List Nat)
    (pid tid ftLow ftHigh tid2 counter : Nat) :
    (rand_pool_add_nonce_data pool stack1 pid tid ftLow ftHigh).2 = true
    ∧ (rand_pool_add_additional_data pool stack2 tid2 counter).2 = true :=
  ⟨rfl, rfl⟩

/-! ### Stage lemmas -/

theorem tscStage_exit_pos (env : OSEnv) (σ : AcqState)
    (h : (tscStage env σ).exit = true) : 0 < (tscStage env σ).st.ea := by
  simpa [tscStage] using h

theorem cpuStage_exit_pos (env : OSEnv) (σ : AcqState)
    (h : (cpuStage env σ).exit = true) : 0 < (cpuStage env σ).st.ea := by
  simpa [cpuStage] using h

theorem bcryptStage_exit_pos (env : OSEnv) (σ : AcqState)
    (h : (bcryptStage env σ).exit = true) : 0 < (bcryptStage env σ).st.ea := by
  cases hr : (resolveBinding env σ.shared).2 with
  | none => simp [bcryptStage, hr] at h
  | some a =>
      cases hb : rand_pool_add_begin σ.pool (rand_pool_bytes_needed σ.pool 1) with
      | none =>
          simp only [bcryptStage, hr, hb] at h ⊢
          simpa using h
      | some len =>
          simp only [bcryptStage, hr, hb] at h ⊢
          simpa using h

theorem cryptoStage_exit_pos (a g : Bool) (σ : AcqState)
    (h : (cryptoStage a g σ).exit = true) : 0 < (cryptoStage a g σ).st.ea := by
  cases hb : rand_pool_add_begin σ.pool (rand_pool_bytes_needed σ.pool 1) with
  | none =>
      simp only [cryptoStage, hb] at h ⊢
      simpa using h
  | some len =>
      simp only [cryptoStage, hb] at h ⊢
      simpa using h

theorem runStage_exit_pos (env : OSEnv) (s : Source) (σ : AcqState)
    (h : (runStage env s σ).exit = true) : 0 < (runStage env s σ).st.ea := by
  cases s with
  | tsc => exact tscStage_exit_pos env σ h
  | cpu => exact cpuStage_exit_pos env σ h
  | bcrypt => exact bcryptStage_exit_pos env σ h
  | cryptoapi_rsa => exact cryptoStage_exit_pos env.rsa_acquire env.rsa_gen σ h
  | cryptoapi_intel => exact cryptoStage_exit_pos env.intel_acquire env.intel_gen σ h

theorem bcryptStage_fallthrough (env : OSEnv) (σ : AcqState)
    (hea : σ.ea = 0) (hpe : σ.pool.entropy = 0)
    (h : (bcryptStage env σ).exit = false) :
    (bcryptStage env σ).st.ea = 0 ∧ (bcryptStage env σ).st.pool.entropy = 0 := by
  cases hr : (resolveBinding env σ.shared).2 with
  | none => simp [bcryptStage, hr, hea, hpe]
  | some a =>
      cases hb : rand_pool_add_begin σ.pool (rand_pool_bytes_needed σ.pool 1) with
      | none =>
          simp only [bcryptStage, hr, hb] at h ⊢
          simp only [decide_eq_false_iff_not, Nat.not_lt, Nat.le_zero] at h
          exact ⟨h, hpe⟩
      | some len =>
          simp only [bcryptStage, hr, hb, rand_pool_entropy_available] at h ⊢
          simp only [decide_eq_false_iff_not, Nat.not_lt, Nat.le_zero] at h
          exact ⟨h, h⟩

theorem cryptoStage_fallthrough (a g : Bool) (σ : AcqState)
    (hea : σ.ea = 0) (hpe : σ.pool.entropy = 0)
    (h : (cryptoStage a g σ).exit = false) :
    (cryptoStage a g σ).st.ea = 0 ∧ (cryptoStage a g σ).st.pool.entropy = 0 := by
  cases hb : rand_pool_add_begin σ.pool (rand_pool_bytes_needed σ.pool 1) with
  | none =>
      simp only [cryptoStage, hb] at h ⊢
      simp only [decide_eq_false_iff_not, Nat.not_lt, Nat.le_zero] at h
      exact ⟨h, hpe⟩
  | some len =>
      simp only [cryptoStage, hb, rand_pool_entropy_available] at h ⊢
      simp only [decide_eq_false_iff_not, Nat.not_lt, Nat.le_zero] at h
      exact ⟨h, h⟩

theorem runStage_fallthrough (env : OSEnv) (s : Source) (σ : AcqState)
    (hea : σ.ea = 0) (hpe : σ.pool.entropy = 0)
    (h : (runStage env s σ).exit = false) :
    (runStage env s σ).st.ea = 0 ∧ (runStage env s σ).st.pool.entropy = 0 := by
  cases s with
  | tsc =>
      simp only [runStage, tscStage, rand_pool_entropy_available] at h ⊢
      simp only [decide_eq_false_iff_not, Nat.not_lt, Nat.le_zero] at h
      exact ⟨h, h⟩
  | cpu =>
      simp only [runStage, cpuStage, rand_pool_entropy_available] at h ⊢
      simp only [decide_eq_false_iff_not, Nat.not_lt, Nat.le_zero] at h
      exact ⟨h, h⟩
  | bcrypt => exact bcryptStage_fallthrough env σ hea hpe h
  | cryptoapi_rsa => exact cryptoStage_fallthrough env.rsa_acquire env.rsa_gen σ hea hpe h
  | cryptoapi_intel => exact cryptoStage_fallthrough env.intel_acquire env.intel_gen σ hea hpe h

/-! ### Priority order and short-circuiting -/

/-- All attempts except possibly the last observed zero available entropy:
the orchestrator never went past a positive observation. -/
def zeroThenStop : List (Source × Nat) → Prop
  | [] => True
  | [_] => True
  | p :: q :: rest => p.2 = 0 ∧ zeroThenStop (q :: rest)

theorem acquireLoop_trace (env : OSEnv) (srcs : List Source) (σ : AcqState)
    (hea : σ.ea = 0) (hpe : σ.pool.entropy = 0) :
    ((acquireLoop env srcs σ).attempts.map Prod.fst <+: srcs)
    ∧ zeroThenStop (acquireLoop env srcs σ).attempts
    ∧ ((acquireLoop env srcs σ).attempts.map Prod.fst ≠ srcs →
        ∃ s n, (acquireLoop env srcs σ).attempts.getLast? = some (s, n) ∧ 0 < n) := by
  induction srcs generalizing σ with
  | nil =>
      refine ⟨⟨[], rfl⟩, trivial, fun hne => absurd ?_ hne⟩
      simp [acquireLoop]
  | cons s rest ih =>
      by_cases hx : (runStage env s σ).exit = true
      · have hpos := runStage_exit_pos env s σ hx
        simp only [acquireLoop, hx, if_true]
        exact ⟨⟨rest, rfl⟩, trivial, fun _ => ⟨s, (runStage env s σ).st.ea, rfl, hpos⟩⟩
      · have hx' : (runStage env s σ).exit = false := by simpa using hx
        obtain ⟨hea', hpe'⟩ := runStage_fallthrough env s σ hea hpe hx'
        obtain ⟨IH1, IH2, IH3⟩ := ih (runStage env s σ).st hea' hpe'
        simp only [acquireLoop, hx', Bool.false_eq_true, if_false]
        refine ⟨?_, ?_, ?_⟩
        · obtain ⟨t, ht⟩ := IH1
          exact ⟨t, by simp [ht]⟩
        · cases hra : (acquireLoop env rest (runStage env s σ).st).attempts with
          | nil => exact trivial
          | cons q tl =>
              rw [hra] at IH2
              exact ⟨hea', IH2⟩
        · intro hne
          have hne' : (acquireLoop env rest (runStage env s σ).st).attempts.map Prod.fst ≠ rest := by
            intro hh
            exact hne (by simp [hh])
          obtain ⟨s', n, hl, hn⟩ := IH3 hne'
          cases hra : (acquireLoop env rest (runStage env s σ).st).attempts with
          | nil => rw [hra] at hl; exact absurd hl (by simp)
          | cons q tl =>
              rw [hra] at hl
              exact ⟨s', n, by rw [List.getLast?_cons_cons]; exact hl, hn⟩

/-- Claim C2: starting from a fresh pool, `rand_pool_acquire_entropy` tries
the sources in the fixed priority order given by `enabledSources` (the
attempted sources are an initial segment of that list); before the final
attempt every observed available-entropy value was zero, so the call
returned immediately at the first positive observation; and the only way
the chain stops before exhausting the source list is that its last attempt
observed positive entropy — a source that contributed nothing is always
followed by an attempt of the next source. -/
theorem acquire_entropy_priority_order (cfg : BuildConfig) (env : OSEnv)
    (shared : BindingVal) (pool : RAND_POOL) (h : pool.entropy = 0) :
    ((rand_pool_acquire_entropy cfg env shared pool).attempts.map Prod.fst <+:
      enabledSources cfg)
    ∧ zeroThenStop (rand_pool_acquire_entropy cfg env shared pool).attempts
    ∧ ((rand_pool_acquire_entropy cfg env shared pool).attempts.map Prod.fst ≠
        enabledSources cfg →
        ∃ s n, (rand_pool_acquire_entropy cfg env shared pool).attempts.getLast? =
          some (s, n) ∧ 0 < n) :=
  acquireLoop_trace env (enabledSources cfg) ⟨pool, 0, shared⟩ rfl h

/-- A build with every optional source compiled in. -/
def cfgAll : BuildConfig := ⟨true, true, true⟩

/-- An environment in which the jitter and CPU sources contribute nothing,
the BCrypt library fails to load, and the `PROV_RSA_FULL` provider
succeeds. -/
def envRsaOk : OSEnv :=
  ⟨fun p => p, fun p => p, none, none, 1, true, true, false, false⟩

theorem acquire_entropy_priority_order_witness :
    testPool.entropy = 0
    ∧ (∃ s n,
        (rand_pool_acquire_entropy cfgAll envRsaOk BindingVal.notset testPool).attempts.getLast? =
          some (s, n) ∧ 0 < n) :=
  ⟨rfl,
   (acquire_entropy_priority_order cfgAll envRsaOk BindingVal.notset testPool rfl).2.2
     (by decide)⟩

/-! ### Reserve/commit discipline of the OS-backed stages -/

/-- The pool events a single OS-backed source attempt may produce: nothing
(source skipped), a failed reservation with no commit, or a successful
reservation followed by exactly one commit claiming 8 bits per byte. -/
def evShape (evs : List PoolEv) : Prop :=
  evs = []
  ∨ (∃ n, evs = [PoolEv.reserve n false])
  ∨ (∃ n b, evs = [PoolEv.reserve n true, PoolEv.commit b (8 * b)])

theorem runStage_evShape (env : OSEnv) (s : Source) (σ : AcqState) :
    evShape (runStage env s σ).evs := by
  cases s with
  | tsc => exact Or.inl rfl
  | cpu => exact Or.inl rfl
  | bcrypt =>
      cases hr : (resolveBinding env σ.shared).2 with
      | none => simp [bcryptStage, runStage, hr, evShape]
      | some a =>
          cases hb : rand_pool_add_begin σ.pool (rand_pool_bytes_needed σ.pool 1) with
          | none =>
              simp only [runStage, bcryptStage, hr, hb]
              exact Or.inr (Or.inl ⟨rand_pool_bytes_needed σ.pool 1, rfl⟩)
          | some len =>
              simp only [runStage, bcryptStage, hr, hb]
              exact Or.inr (Or.inr ⟨rand_pool_bytes_needed σ.pool 1, _, rfl⟩)
  | cryptoapi_rsa =>
      cases hb : rand_pool_add_begin σ.pool (rand_pool_bytes_needed σ.pool 1) with
      | none =>
          simp only [runStage, cryptoStage, hb]
          exact Or.inr (Or.inl ⟨rand_pool_bytes_needed σ.pool 1, rfl⟩)
      | some len =>
          simp only [runStage, cryptoStage, hb]
          exact Or.inr (Or.inr ⟨rand_pool_bytes_needed σ.pool 1, _, rfl⟩)
  | cryptoapi_intel =>
      cases hb : rand_pool_add_begin σ.pool (rand_pool_bytes_needed σ.pool 1) with
      | none =>
          simp only [runStage, cryptoStage, hb]
          exact Or.inr (Or.inl ⟨rand_pool_bytes_needed σ.pool 1, rfl⟩)
      | some len =>
          simp only [runStage, cryptoStage, hb]
          exact Or.inr (Or.inr ⟨rand_pool_bytes_needed σ.pool 1, _, rfl⟩)

theorem acquireLoop_evShape (env : OSEnv) (srcs : List Source) (σ : AcqState) :
    ∀ p ∈ (acquireLoop env srcs σ).events, evShape p.2 := by
  induction srcs generalizing σ with
  | nil => simp [acquireLoop]
  | cons s rest ih =>
      by_cases hx : (runStage env s σ).exit = true
      · simp only [acquireLoop, hx, if_true]
        intro p hp
        rcases List.mem_singleton.1 hp with rfl
        exact runStage_evShape env s σ
      · have hx' : (runStage env s σ).exit = false := by simpa using hx
        simp only [acquireLoop, hx', Bool.false_eq_true, if_false]
        intro p hp
        rcases List.mem_cons.1 hp with rfl | hp'
        · exact runStage_evShape env s σ
        · exact ih (runStage env s σ).st p hp'

/-- Claim C10: in `rand_pool_acquire_entropy`, every OS-backed source attempt
commits exactly when its reservation returned a buffer — a failed
reservation produces no commit — and every commit claims an entropy weight
of exactly 8 bits per committed byte. -/
theorem acquire_commit_follows_reserve (cfg : BuildConfig) (env : OSEnv)
    (shared : BindingVal) (pool : RAND_POOL) :
    ∀ p ∈ (rand_pool_acquire_entropy cfg env shared pool).events, evShape p.2 :=
  fun p hp => acquireLoop_evShape env (enabledSources cfg) ⟨pool, 0, shared⟩ p hp

theorem acquire_commit_follows_reserve_witness :
    evShape [PoolEv.reserve 32 true, PoolEv.commit 32 (8 * 32)] :=
  acquire_commit_follows_reserve cfgAll envRsaOk BindingVal.notset testPool
    (Source.cryptoapi_rsa, [PoolEv.reserve 32 true, PoolEv.commit 32 (8 * 32)])
    (by decide)

/-! ### All-or-nothing crediting of the OS-backed sources -/

/-- Claim C3: an OS-backed source attempt commits exactly the requested
`bytes_needed` bytes when the OS call reported its defined success signal
(`STATUS_SUCCESS` for `BCryptGenRandom`, nonzero results for both CryptoAPI
calls), and exactly 0 bytes on any other outcome; no partial byte count is
ever committed. -/
theorem os_source_commits_all_or_nothing (env : OSEnv) (σ : AcqState) (a g : Bool) :
    (∀ b e, PoolEv.commit b e ∈ (bcryptStage env σ).evs →
      (env.bcrypt_status = STATUS_SUCCESS ∧ b = rand_pool_bytes_needed σ.pool 1)
      ∨ (env.bcrypt_status ≠ STATUS_SUCCESS ∧ b = 0))
    ∧ (∀ b e, PoolEv.commit b e ∈ (cryptoStage a g σ).evs →
      ((a && g) = true ∧ b = rand_pool_bytes_needed σ.pool 1)
      ∨ ((a && g) = false ∧ b = 0)) := by
  constructor
  · intro b e hm
    cases hr : (resolveBinding env σ.shared).2 with
    | none => simp [bcryptStage, hr] at hm
    | some x =>
        cases hb : rand_pool_add_begin σ.pool (rand_pool_bytes_needed σ.pool 1) with
        | none => simp [bcryptStage, hr, hb] at hm
        | some len =>
            by_cases hs : env.bcrypt_status = STATUS_SUCCESS
            · simp [bcryptStage, hr, hb, hs] at hm
              exact Or.inl ⟨hs, hm.1⟩
            · simp [bcryptStage, hr, hb, hs] at hm
              exact Or.inr ⟨hs, hm.1⟩
  · intro b e hm
    cases hb : rand_pool_add_begin σ.pool (rand_pool_bytes_needed σ.pool 1) with
    | none => simp [cryptoStage, hb] at hm
    | some len =>
        by_cases hag : (a && g) = true
        · simp [cryptoStage, hb, hag] at hm
          exact Or.inl ⟨hag, hm.1⟩
        · have hag' : (a && g) = false := by simpa using hag
          simp [cryptoStage, hb, hag'] at hm
          exact Or.inr ⟨hag', hm.1⟩

/-- The locals at the start of an OS-backed stage in a fresh call: fresh pool,
`entropy_available` 0, binding still unresolved. -/
def testAcqState : AcqState := ⟨testPool, 0, BindingVal.notset⟩

/-- An environment in which the BCrypt binding resolves and every OS call
succeeds. -/
def envAllOk : OSEnv :=
  ⟨fun p => p, fun p => p, some 10, some 20, 0, true, true, true, true⟩

theorem os_source_commits_all_or_nothing_witness :
    ((envAllOk.bcrypt_status = STATUS_SUCCESS ∧ 32 = rand_pool_bytes_needed testAcqState.pool 1)
      ∨ (envAllOk.bcrypt_status ≠ STATUS_SUCCESS ∧ 32 = 0))
    ∧ (((true && false) = true ∧ 0 = rand_pool_bytes_needed testAcqState.pool 1)
      ∨ ((true && false) = false ∧ 0 = 0)) :=
  ⟨(os_source_commits_all_or_nothing envAllOk testAcqState true false).1 32 256 (by decide),
   (os_source_commits_all_or_nothing envAllOk testAcqState true false).2 0 0 (by decide)⟩

/-! ### Handle discipline of the CryptoAPI sources -/

/-- Claim C6: in both legacy CryptoAPI source blocks, whenever the provider
handle is acquired it is also released before the attempt returns — the
handle events are either empty or exactly acquire-then-release — and a
handle-acquisition failure or a fill failure results in 0 committed
bytes. -/
theorem cryptoapi_source_releases_handle (a g : Bool) (σ : AcqState) :
    ((cryptoStage a g σ).hevs = []
      ∨ (cryptoStage a g σ).hevs = [HandleEv.acquired, HandleEv.released])
    ∧ ((a = false ∨ g = false) →
        ∀ b e, PoolEv.commit b e ∈ (cryptoStage a g σ).evs → b = 0) := by
  constructor
  · cases hb : rand_pool_add_begin σ.pool (rand_pool_bytes_needed σ.pool 1) with
    | none => exact Or.inl (by simp [cryptoStage, hb])
    | some len =>
        by_cases ha : a = true
        · exact Or.inr (by simp [cryptoStage, hb, ha])
        · exact Or.inl (by simp [cryptoStage, hb, ha])
  · intro hfail b e hm
    cases hb : rand_pool_add_begin σ.pool (rand_pool_bytes_needed σ.pool 1) with
    | none => simp [cryptoStage, hb] at hm
    | some len =>
        have hag : (a && g) = false := by
          rcases hfail with h | h <;> simp [h]
        simp [cryptoStage, hb, hag] at hm
        exact hm.1

theorem cryptoapi_source_releases_handle_witness :
    ((cryptoStage true false testAcqState).hevs = []
      ∨ (cryptoStage true false testAcqState).hevs = [HandleEv.acquired, HandleEv.released])
    ∧ (0 : Nat) = 0 :=
  ⟨(cryptoapi_source_releases_handle true false testAcqState).1,
   (cryptoapi_source_releases_handle true false testAcqState).2 (Or.inr rfl) 0 0 (by decide)⟩

/-! ### The racy lazy binding, as an interleaving machine -/

/-- State of one execution of the resolution protocol (one call of
`rand_pool_acquire_entropy` reaching the binding code): before the initial
interlocked read; after having read the `NOTSET` sentinel and performed the
`LoadLibraryExA`/`GetProcAddress` lookup (recording the library handle it
loaded, if any, and the function value it will try to publish); or finished
(recording the binding value it will use, the library handle it loaded, and
whether it called `FreeLibrary` on that handle). -/
inductive TPhase where
  | start : TPhase
  | resolving : Option Nat → BindingVal → TPhase
  | done : BindingVal → Option Nat → Bool → TPhase
deriving DecidableEq, Repr

def TPhase.isDone : TPhase → Bool
  | TPhase.done _ _ _ => true
  | _ => false

/-- Whether this execution still holds a loaded library handle. -/
def TPhase.holdsHandle : TPhase → Bool
  | TPhase.start => false
  | TPhase.resolving hm _ => hm.isSome
  | TPhase.done _ hm freed => hm.isSome && !freed

/-- Global state: the shared static `s_pfnBCryptGenRandom`, the per-execution
phases, and how many library-load lookups were performed so far. -/
structure SysState where
  shared : BindingVal
  threads : List TPhase
  lookups : Nat
deriving DecidableEq, Repr

/-- The function value a thread computes from its `LoadLibraryExA` result
`hm` and its `GetProcAddress` result: NULL when the library failed to load
and the raw `GetProcAddress` result otherwise. -/
def lookupBinding (hm proc : Option Nat) : BindingVal :=
  match hm with
  | none => BindingVal.null
  | some _ =>
      match proc with
      | none => BindingVal.null
      | some a => BindingVal.fn a

/-- One atomic step of execution `i` (rand_win.c lines 79 to 95).  From
`start`: the initial `InterlockedCompareExchangePointer(&s, 0, 0)` read —
when the shared state has already left the sentinel the execution adopts it
without any lookup, otherwise it performs the (thread-local) library-load
lookup.  From `resolving`: the publishing
`InterlockedCompareExchangePointer(&s, pfn, NOTSET)` — when the shared
state is still the sentinel the compare-and-swap succeeds and the execution
keeps its handle, otherwise some other execution was faster, so this one
frees the handle it loaded (if any) and adopts the published value.
`tenv i` supplies the `LoadLibraryExA` and `GetProcAddress` outcomes of
execution `i`. -/
def threadStep (tenv : Nat → Option Nat × Option Nat) (i : Nat) (sys : SysState) : SysState :=
  match sys.threads[i]? with
  | none => sys
  | some TPhase.start =>
      if sys.shared = BindingVal.notset then
        ⟨sys.shared,
         sys.threads.set i (TPhase.resolving (tenv i).1 (lookupBinding (tenv i).1 (tenv i).2)),
         sys.lookups + 1⟩
      else
        ⟨sys.shared, sys.threads.set i (TPhase.done sys.shared none false), sys.lookups⟩
  | some (TPhase.resolving hm pfn) =>
      if sys.shared = BindingVal.notset then
        ⟨pfn, sys.threads.set i (TPhase.done pfn hm false), sys.lookups⟩
      else
        ⟨sys.shared, sys.threads.set i (TPhase.done sys.shared hm hm.isSome), sys.lookups⟩
  | some (TPhase.done _ _ _) => sys

/-- Run an arbitrary interleaving: the schedule lists which execution takes
the next atomic step. -/
def runSched (tenv : Nat → Option Nat × Option Nat) (sched : List Nat) (sys : SysState) :
    SysState :=
  match sched with
  | [] => sys
  | i :: rest => runSched tenv rest (threadStep tenv i sys)

/-- Process start: the static holds the `NOTSET` sentinel, `n` executions are
about to resolve, no lookup has happened. -/
def initSys (n : Nat) : SysState :=
  ⟨BindingVal.notset, List.replicate n TPhase.start, 0⟩

theorem threadStep_frozen (tenv : Nat → Option Nat × Option Nat) (i : Nat) (sys : SysState)
    (h : sys.shared ≠ BindingVal.notset) :
    (threadStep tenv i sys).shared = sys.shared
    ∧ (threadStep tenv i sys).lookups = sys.lookups := by
  cases hp : sys.threads[i]? with
  | none => simp [threadStep, hp]
  | some ph =>
      cases ph with
      | start => simp [threadStep, hp, h]
      | resolving hm pfn => simp [threadStep, hp, h]
      | done u hm f => simp [threadStep, hp]

/-- Claim C4: once the shared binding state has left the `NOTSET` sentinel —
whether it was bound to a function or cached as the NULL (permanently
unavailable) result — no schedule of further calls ever changes it again,
and no further call performs a library-load lookup. -/
theorem binding_resolved_at_most_once (tenv : Nat → Option Nat × Option Nat)
    (sched : List Nat) (sys : SysState) (h : sys.shared ≠ BindingVal.notset) :
    (runSched tenv sched sys).shared = sys.shared
    ∧ (runSched tenv sched sys).lookups = sys.lookups := by
  induction sched generalizing sys with
  | nil => exact ⟨rfl, rfl⟩
  | cons i rest ih =>
      obtain ⟨h1, h2⟩ := threadStep_frozen tenv i sys h
      obtain ⟨h3, h4⟩ := ih (threadStep tenv i sys) (by rw [h1]; exact h)
      exact ⟨by rw [runSched, h3, h1], by rw [runSched, h4, h2]⟩

/-- Per-execution lookup outcomes used in concrete runs: execution `i` loads
library handle `100 + i` and locates the entry point at address `200 + i`. -/
def tenv0 : Nat → Option Nat × Option Nat :=
  fun i => (some (100 + i), some (200 + i))

/-- A state in which a failed resolution has been cached: the shared static
is NULL and two further calls are about to consult it. -/
def sysNull : SysState := ⟨BindingVal.null, [TPhase.start, TPhase.start], 0⟩

theorem binding_resolved_at_most_once_witness :
    sysNull.shared ≠ BindingVal.notset
    ∧ ((runSched tenv0 [0, 1, 0] sysNull).shared = sysNull.shared
      ∧ (runSched tenv0 [0, 1, 0] sysNull).lookups = sysNull.lookups) :=
  ⟨by decide, binding_resolved_at_most_once tenv0 [0, 1, 0] sysNull (by decide)⟩

theorem getElem?_set_cases {α : Type} {l : List α} {i j : Nat} {a x : α}
    (h : (l.set i a)[j]? = some x) : (i = j ∧ x = a) ∨ (i ≠ j ∧ l[j]? = some x) := by
  by_cases hij : i = j
  · subst hij
    rw [List.getElem?_set, if_pos rfl] at h
    by_cases hl : i < l.length
    · rw [if_pos hl] at h
      exact Or.inl ⟨rfl, (Option.some_inj.1 h).symm⟩
    · rw [if_neg hl] at h
      exact absurd h (by simp)
  · rw [List.getElem?_set, if_neg hij] at h
    exact Or.inr ⟨hij, h⟩

theorem lookupBinding_ne_notset (hm proc : Option Nat) :
    lookupBinding hm proc ≠ BindingVal.notset := by
  cases hm <;> cases proc <;> simp [lookupBinding]

/-- Invariant of the resolution protocol: a resolving execution never tries
to publish the sentinel; a finished execution uses exactly the published
shared value, which is no longer the sentinel; and among finished
executions at most one still holds a library handle. -/
def SysInv (sys : SysState) : Prop :=
  (∀ (i : Nat) (hm : Option Nat) (pfn : BindingVal),
      sys.threads[i]? = some (TPhase.resolving hm pfn) → pfn ≠ BindingVal.notset)
  ∧ (∀ (i : Nat) (u : BindingVal) (hm : Option Nat) (f : Bool),
      sys.threads[i]? = some (TPhase.done u hm f) →
      u = sys.shared ∧ u ≠ BindingVal.notset)
  ∧ (∀ (i j : Nat) (pi pj : TPhase), sys.threads[i]? = some pi → sys.threads[j]? = some pj →
      (pi.isDone && pi.holdsHandle) = true → (pj.isDone && pj.holdsHandle) = true → i = j)

theorem threadStep_inv (tenv : Nat → Option Nat × Option Nat) (i : Nat) (sys : SysState)
    (h : SysInv sys) : SysInv (threadStep tenv i sys) := by
  obtain ⟨hR, hB, hC⟩ := h
  cases hp : sys.threads[i]? with
  | none => simpa [threadStep, hp] using ⟨hR, hB, hC⟩
  | some ph =>
      cases ph with
      | start =>
          by_cases hs : sys.shared = BindingVal.notset
          · simp only [threadStep, hp, if_pos hs]
            refine ⟨?_, ?_, ?_⟩
            · intro j hm pfn hj
              rcases getElem?_set_cases hj with ⟨rfl, he⟩ | ⟨hne, hj'⟩
              · cases he
                exact lookupBinding_ne_notset (tenv i).1 (tenv i).2
              · exact hR j hm pfn hj'
            · intro j u hm f hj
              rcases getElem?_set_cases hj with ⟨rfl, he⟩ | ⟨hne, hj'⟩
              · cases he
              · exact hB j u hm f hj'
            · intro j k pj pk hj hk hdj hdk
              rcases getElem?_set_cases hj with ⟨rfl, he⟩ | ⟨hnej, hj'⟩
              · cases he; simp [TPhase.isDone] at hdj
              · rcases getElem?_set_cases hk with ⟨rfl, he⟩ | ⟨hnek, hk'⟩
                · cases he; simp [TPhase.isDone] at hdk
                · exact hC j k pj pk hj' hk' hdj hdk
          · simp only [threadStep, hp, if_neg hs]
            refine ⟨?_, ?_, ?_⟩
            · intro j hm pfn hj
              rcases getElem?_set_cases hj with ⟨rfl, he⟩ | ⟨hne, hj'⟩
              · cases he
              · exact hR j hm pfn hj'
            · intro j u hm f hj
              rcases getElem?_set_cases hj with ⟨rfl, he⟩ | ⟨hne, hj'⟩
              · cases he
                exact ⟨rfl, hs⟩
              · exact hB j u hm f hj'
            · intro j k pj pk hj hk hdj hdk
              rcases getElem?_set_cases hj with ⟨rfl, he⟩ | ⟨hnej, hj'⟩
              · cases he; simp [TPhase.holdsHandle] at hdj
              · rcases getElem?_set_cases hk with ⟨rfl, he⟩ | ⟨hnek, hk'⟩
                · cases he; simp [TPhase.holdsHandle] at hdk
                · exact hC j k pj pk hj' hk' hdj hdk
      | resolving hm0 pfn0 =>
          by_cases hs : sys.shared = BindingVal.notset
          · -- this execution wins the compare-and-swap
            have hother : ∀ (j : Nat) (u : BindingVal) (hm : Option Nat) (f : Bool),
                sys.threads[j]? = some (TPhase.done u hm f) → False := by
              intro j u hm f hj
              obtain ⟨he, hne⟩ := hB j u hm f hj
              exact hne (he.trans hs)
            simp only [threadStep, hp, if_pos hs]
            refine ⟨?_, ?_, ?_⟩
            · intro j hm pfn hj
              rcases getElem?_set_cases hj with ⟨rfl, he⟩ | ⟨hne, hj'⟩
              · cases he
              · exact hR j hm pfn hj'
            · intro j u hm f hj
              rcases getElem?_set_cases hj with ⟨rfl, he⟩ | ⟨hne, hj'⟩
              · cases he
                exact ⟨rfl, hR i hm0 pfn0 hp⟩
              · exact absurd hj' (by intro hj''; exact hother j u hm f hj'')
            · intro j k pj pk hj hk hdj hdk
              rcases getElem?_set_cases hj with ⟨rfl, hej⟩ | ⟨hnej, hj'⟩
              · rcases getElem?_set_cases hk with ⟨he2, hek⟩ | ⟨hnek, hk'⟩
                · exact he2
                · cases pk with
                  | done u hm f => exact absurd hk' (by intro hk''; exact hother k u hm f hk'')
                  | start => simp [TPhase.isDone] at hdk
                  | resolving a b => simp [TPhase.isDone] at hdk
              · cases pj with
                | done u hm f => exact absurd hj' (by intro hj''; exact hother j u hm f hj'')
                | start => simp [TPhase.isDone] at hdj
                | resolving a b => simp [TPhase.isDone] at hdj
          · -- this execution loses the race: free the handle, adopt the value
            simp only [threadStep, hp, if_neg hs]
            refine ⟨?_, ?_, ?_⟩
            · intro j hm pfn hj
              rcases getElem?_set_cases hj with ⟨rfl, he⟩ | ⟨hne, hj'⟩
              · cases he
              · exact hR j hm pfn hj'
            · intro j u hm f hj
              rcases getElem?_set_cases hj with ⟨rfl, he⟩ | ⟨hne, hj'⟩
              · cases he
                exact ⟨rfl, hs⟩
              · exact hB j u hm f hj'
            · intro j k pj pk hj hk hdj hdk
              rcases getElem?_set_cases hj with ⟨rfl, he⟩ | ⟨hnej, hj'⟩
              · cases he
                simp only [TPhase.isDone, TPhase.holdsHandle, Bool.true_and,
                  Bool.and_not_self] at hdj
                exact absurd hdj (by decide)
              · rcases getElem?_set_cases hk with ⟨rfl, he⟩ | ⟨hnek, hk'⟩
                · cases he
                  simp only [TPhase.isDone, TPhase.holdsHandle, Bool.true_and,
                    Bool.and_not_self] at hdk
                  exact absurd hdk (by decide)
                · exact hC j k pj pk hj' hk' hdj hdk
      | done u0 hm0 f0 => simpa [threadStep, hp] using ⟨hR, hB, hC⟩

theorem runSched_inv (tenv : Nat → Option Nat × Option Nat) (sched : List Nat)
    (sys : SysState) (h : SysInv sys) : SysInv (runSched tenv sched sys) := by
  induction sched generalizing sys with
  | nil => exact h
  | cons i rest ih => exact ih (threadStep tenv i sys) (threadStep_inv tenv i sys h)

theorem replicate_getElem?_eq {α : Type} {n j : Nat} {a b : α}
    (h : (List.replicate n a)[j]? = some b) : b = a := by
  rw [List.getElem?_replicate] at h
  by_cases hj : j < n
  · rw [if_pos hj] at h
    exact (Option.some_inj.1 h).symm
  · rw [if_neg hj] at h
    cases h

theorem initSys_inv (n : Nat) : SysInv (initSys n) := by
  unfold SysInv initSys
  refine ⟨?_, ?_, ?_⟩
  · intro j hm pfn hj
    cases replicate_getElem?_eq hj
  · intro j u hm f hj
    cases replicate_getElem?_eq hj
  · intro j k pj pk hj hk hdj hdk
    cases replicate_getElem?_eq hj
    simp [TPhase.isDone] at hdj

/-- Claim C5: for every interleaving of any number of executions racing to
resolve the binding for the first time, every finished execution uses the
single published shared value (all of them agree and it is never the
sentinel), and at most one finished execution still holds a library handle —
every loser of the compare-and-swap race has freed the handle it redundantly
loaded. -/
theorem binding_race_converges (tenv : Nat → Option Nat × Option Nat)
    (sched : List Nat) (n : Nat) :
    (∀ (i : Nat) (u : BindingVal) (hm : Option Nat) (f : Bool),
      (runSched tenv sched (initSys n)).threads[i]? = some (TPhase.done u hm f) →
      u = (runSched tenv sched (initSys n)).shared ∧ u ≠ BindingVal.notset)
    ∧ (∀ (i j : Nat) (pi pj : TPhase),
      (runSched tenv sched (initSys n)).threads[i]? = some pi →
      (runSched tenv sched (initSys n)).threads[j]? = some pj →
      (pi.isDone && pi.holdsHandle) = true → (pj.isDone && pj.holdsHandle) = true → i = j) := by
  have h := runSched_inv tenv sched (initSys n) (initSys_inv n)
  unfold SysInv at h
  exact ⟨h.2.1, h.2.2⟩

theorem binding_race_converges_witness :
    BindingVal.fn 201 = (runSched tenv0 [0, 1, 1, 0] (initSys 2)).shared
    ∧ BindingVal.fn 201 ≠ BindingVal.notset :=
  (binding_race_converges tenv0 [0, 1, 1, 0] 2).1 0 (BindingVal.fn 201) (some 100) true
    (by decide)
